import Mathlib

/-!
Shallow embedding of the A/B testing engine in
`packages/ai-service/app/services/ab_testing.py` (class `ABTestingService`),
together with proofs about its operations.

Modelling conventions:
- Python `float` arithmetic on weights, rates and pooled proportions is
  modelled with `ℚ` (all the values the code produces there are ratios of
  integers); the single square root in `_calculate_significance` is modelled
  with `Real.sqrt`, and `math.sqrt` of a negative argument (a Python
  `ValueError`) is modelled by returning `none`.
- Python dicts (`_experiments`, `_user_assignments`) are modelled as
  functions into `Option`.
- `datetime.utcnow()` is modelled as an explicit clock argument `now : ℕ`.
- `int(hashlib.md5(...).hexdigest(), 16)` is modelled as an abstract
  parameter `md5val : String → ℕ`: the proofs hold for every choice of the
  hash function.
- `random.random()` in the sampling gate of `get_variant` is modelled as an
  explicit argument `r : ℚ` (the value drawn on that call).
- The opaque `config` payload of a variant is modelled as a `String`; the
  engine never interprets it.
-/

/-- `ExperimentStatus` enum of `ab_testing.py`. -/
inductive ExperimentStatus where
  | draft
  | running
  | paused
  | completed
  | cancelled
deriving DecidableEq

/-- The `Variant` dataclass: name, normalized weight, opaque config payload,
and the impression / conversion counters. -/
structure Variant where
  name : String
  weight : ℚ
  config : String
  impressions : ℕ
  conversions : ℕ
deriving DecidableEq, Inhabited

/-- `Variant.conversion_rate`: `conversions / impressions`, `0` when
`impressions = 0`. -/
def Variant.conversion_rate (v : Variant) : ℚ :=
  if v.impressions = 0 then 0 else (v.conversions : ℚ) / (v.impressions : ℚ)

/-- The `Experiment` dataclass (the fields the engine reads or writes). -/
structure Experiment where
  id : String
  name : String
  description : String
  variants : List Variant
  status : ExperimentStatus
  createdAt : ℕ
  startedAt : Option ℕ
  endedAt : Option ℕ
  targetSampleSize : ℕ
deriving DecidableEq

/-- `Experiment.total_impressions`: sum of impressions over all variants. -/
def Experiment.total_impressions (e : Experiment) : ℕ :=
  (e.variants.map Variant.impressions).sum

/-- The mutable state of one `ABTestingService` instance: the three settings
read in `__init__` and the two dictionaries. -/
structure ABState where
  enabled : Bool
  defaultVariant : String
  sampleRate : ℚ
  experiments : String → Option Experiment
  userAssignments : String → String → Option String

/-- One element of the `variants` argument of `create_experiment`: a dict
with a `name`, an optional `weight` (`v.get("weight", 1.0)`) and a config. -/
structure VariantInput where
  name : String
  weight : Option ℚ
  config : String
deriving DecidableEq

/-- The effective input weight of one variant dict: `v.get("weight", 1.0)`. -/
def VariantInput.effWeight (v : VariantInput) : ℚ := v.weight.getD 1

/-- The `for v in variants` loop of `create_experiment`: each iteration
divides `v.get("weight", 1.0)` by `total_weight`, so the iteration — not
the function entry — raises `ZeroDivisionError` (the `Except.error` branch)
when the total is zero; on an empty list the loop body never runs and no
division happens. -/
def build_variant_objects (total_weight : ℚ) :
    List VariantInput → Except String (List Variant)
  | [] => Except.ok []
  | v :: rest =>
      if total_weight = 0 then Except.error "ZeroDivisionError"
      else (build_variant_objects total_weight rest).map (fun l =>
        { name := v.name
          weight := v.effWeight / total_weight
          config := v.config
          impressions := 0
          conversions := 0 } :: l)

/-- `create_experiment`: normalizes the input weights by their total and
registers a new Draft experiment.  The division by `total_weight` happens
inside the per-variant loop with no guard, so any *nonempty* variant list
whose weights sum to zero raises `ZeroDivisionError`, while the empty list
(whose sum is also zero) builds no variant and is registered as a
zero-variant experiment.  There is no other validation. -/
def create_experiment (s : ABState) (experiment_id nm description : String)
    (variants : List VariantInput) (target_sample_size : ℕ) (now : ℕ) :
    Except String (Experiment × ABState) :=
  let total_weight : ℚ := (variants.map VariantInput.effWeight).sum
  match build_variant_objects total_weight variants with
  | Except.error msg => Except.error msg
  | Except.ok variant_objects =>
    let experiment : Experiment :=
      { id := experiment_id
        name := nm
        description := description
        variants := variant_objects
        status := ExperimentStatus.draft
        createdAt := now
        startedAt := none
        endedAt := none
        targetSampleSize := target_sample_size }
    Except.ok (experiment,
      { s with experiments := fun i =>
          if i = experiment_id then some experiment else s.experiments i })

/-- `start_experiment`: if the id is unknown return `False`; otherwise set
`status = RUNNING` and overwrite `started_at` with the current time —
unconditionally, whatever the previous status was. -/
def start_experiment (s : ABState) (experiment_id : String) (now : ℕ) :
    Bool × ABState :=
  match s.experiments experiment_id with
  | none => (false, s)
  | some e =>
    let e' := { e with status := ExperimentStatus.running, startedAt := some now }
    (true, { s with experiments := fun i =>
        if i = experiment_id then some e' else s.experiments i })

/-- `stop_experiment`: if the id is unknown return `False`; otherwise set
`status = COMPLETED` and `ended_at`, unconditionally. -/
def stop_experiment (s : ABState) (experiment_id : String) (now : ℕ) :
    Bool × ABState :=
  match s.experiments experiment_id with
  | none => (false, s)
  | some e =>
    let e' := { e with status := ExperimentStatus.completed, endedAt := some now }
    (true, { s with experiments := fun i =>
        if i = experiment_id then some e' else s.experiments i })

/-- The hash input string `f"{user_id}:{experiment.id}"`. -/
def hash_input (user_id experiment_id : String) : String :=
  user_id ++ ":" ++ experiment_id

/-- The cumulative-weight scan of `_assign_variant`: walk the variant list
keeping a running `cumulative`; return the index of the first variant with
`normalized ≤ cumulative + weight`; if none matches, return the fallback
index (the last position, `variants[-1]` in the source). -/
def select_variant_idx (normalized : ℚ) (cumulative : ℚ) (i : ℕ)
    (fallback : ℕ) : List Variant → ℕ
  | [] => fallback
  | v :: rest =>
      if normalized ≤ cumulative + v.weight then i
      else select_variant_idx normalized (cumulative + v.weight) (i + 1) fallback rest

/-- `_assign_variant`, returning the index of the chosen variant in
`e.variants` (the Python code returns the variant object itself and the
caller mutates it in place; index + list update models that aliasing). -/
def assign_variant_idx (md5val : String → ℕ) (e : Experiment)
    (user_id : String) : ℕ :=
  let hash_value := md5val (hash_input user_id e.id)
  let normalized : ℚ := ((hash_value % 10000 : ℕ) : ℚ) / 10000
  select_variant_idx normalized 0 0 (e.variants.length - 1) e.variants

/-- `variant.impressions += 1` on the `idx`-th element of the list. -/
def bump_impression : ℕ → List Variant → List Variant
  | _, [] => []
  | 0, v :: rest => { v with impressions := v.impressions + 1 } :: rest
  | n + 1, v :: rest => v :: bump_impression n rest

/-- The lookup loop `for v in experiment.variants: if v.name == variant_name`:
first variant with the given name. -/
def find_variant_by_name (nm : String) : List Variant → Option Variant
  | [] => none
  | v :: rest => if v.name = nm then some v else find_variant_by_name nm rest

/-- `get_variant`.  Returns `(variant_name, variant_config)` and the new
state.  Order of checks, as in the source: the `enabled` flag, experiment
existence, `RUNNING` status, a stored assignment whose name matches a
variant, the sampling gate `random.random() > self.sample_rate` (the fresh
draw is the argument `r`), and finally hash-based assignment with
assignment storage and an impression increment. -/
def get_variant (md5val : String → ℕ) (s : ABState)
    (experiment_id user_id : String) (r : ℚ) :
    (String × String) × ABState :=
  if s.enabled = false then ((s.defaultVariant, ""), s)
  else
    match s.experiments experiment_id with
    | none => ((s.defaultVariant, ""), s)
    | some e =>
      if e.status ≠ ExperimentStatus.running then ((s.defaultVariant, ""), s)
      else
        match (s.userAssignments user_id experiment_id).bind
            (fun nm => find_variant_by_name nm e.variants) with
        | some v => ((v.name, v.config), s)
        | none =>
          if r > s.sampleRate then ((s.defaultVariant, ""), s)
          else
            let idx := assign_variant_idx md5val e user_id
            let chosen := e.variants.getD idx default
            let e' := { e with variants := bump_impression idx e.variants }
            ((chosen.name, chosen.config),
              { s with
                experiments := fun i =>
                  if i = experiment_id then some e' else s.experiments i
                userAssignments := fun u x =>
                  if u = user_id ∧ x = experiment_id then some chosen.name
                  else s.userAssignments u x })

/-- `variant.conversions += 1` on the first variant with the given name;
`none` when no variant matches (the loop in `record_conversion` falls
through and the function returns `False`). -/
def bump_conversion_by_name (nm : String) : List Variant → Option (List Variant)
  | [] => none
  | v :: rest =>
      if v.name = nm then some ({ v with conversions := v.conversions + 1 } :: rest)
      else (bump_conversion_by_name nm rest).map (fun l => v :: l)

/-- One entry of the per-variant breakdown built by
`get_experiment_results` (the dict appended to `variant_results`). -/
structure VariantResult where
  name : String
  impressions : ℕ
  conversions : ℕ
  conversion_rate : ℚ
  lift : ℚ
deriving DecidableEq

/-- The lift of `v` against `control` when the control rate is positive:
`(rate − controlRate) / controlRate × 100`. -/
def lift_vs (control v : Variant) : ℚ :=
  (v.conversion_rate - control.conversion_rate) / control.conversion_rate * 100

/-- The breakdown dict built for one variant inside the loop of
`get_experiment_results`. -/
def variant_result_of (control v : Variant) : VariantResult :=
  { name := v.name
    impressions := v.impressions
    conversions := v.conversions
    conversion_rate := v.conversion_rate
    lift := if 0 < control.conversion_rate then lift_vs control v else 0 }

/-- The `for variant in experiment.variants` loop of
`get_experiment_results` (source lines 313–342): accumulates the
per-variant breakdown and tracks `best_variant` / `best_lift`.  A variant
replaces the running best when its lift is strictly greater than `best_lift`
and it is not (structurally) equal to the control — `variant != control` is
Python dataclass field equality. -/
def results_loop (control : Variant) (best : Variant) (best_lift : ℚ)
    (acc : List VariantResult) : List Variant → Variant × ℚ × List VariantResult
  | [] => (best, best_lift, acc.reverse)
  | v :: rest =>
      if 0 < control.conversion_rate then
        let lift := lift_vs control v
        if best_lift < lift ∧ v ≠ control then
          results_loop control v lift (variant_result_of control v :: acc) rest
        else
          results_loop control best best_lift (variant_result_of control v :: acc) rest
      else
        results_loop control best best_lift (variant_result_of control v :: acc) rest

/-- The control / best / breakdown computation of `get_experiment_results`
on a variant snapshot: `control = variants[0]`, `best_variant = control`,
`best_lift = 0.0`, then the loop above.  `none` models the `IndexError`
Python raises on an empty variant list. -/
def compute_best (variants : List Variant) :
    Option (Variant × ℚ × List VariantResult) :=
  match variants with
  | [] => none
  | control :: _ => some (results_loop control control 0 [] variants)

/-- `_calculate_significance` (source lines 372–418), modelled over ℝ.
`math.sqrt` of a negative argument raises `ValueError` in Python; that is
the `none` branch.  The returned flag `z ≥ 1.96` is a proposition over ℝ. -/
noncomputable def calculate_significance (control treatment : Variant) :
    Option (Prop × ℝ) :=
  let n1 := control.impressions
  let n2 := treatment.impressions
  if n1 < 100 ∨ n2 < 100 then some (False, 0)
  else
    let p1 : ℚ := control.conversion_rate
    let p2 : ℚ := treatment.conversion_rate
    let p_pool : ℚ := ((control.conversions + treatment.conversions : ℕ) : ℚ) /
      ((n1 + n2 : ℕ) : ℚ)
    if p_pool = 0 ∨ p_pool = 1 then some (False, 0)
    else
      let arg : ℚ := p_pool * (1 - p_pool) * (1 / (n1 : ℚ) + 1 / (n2 : ℚ))
      if arg < 0 then none
      else
        let se : ℝ := Real.sqrt (arg : ℝ)
        if se = 0 then some (False, 0)
        else
          let z : ℝ := |((p2 : ℝ) - (p1 : ℝ))| / se
          some (z ≥ 1.96, min 99.9 (50 + z * 25))

/-- Iterated calls to `get_variant` for one `(experiment, user)` pair, one
call per random draw in the list; returns the final state. -/
def iterate_get_variant (md5val : String → ℕ) (s : ABState)
    (experiment_id user_id : String) : List ℚ → ABState
  | [] => s
  | r :: rs =>
      iterate_get_variant md5val
        (get_variant md5val s experiment_id user_id r).2 experiment_id user_id rs

/-- The best-variant tracking step of the `get_experiment_results` loop, as
a fold step on the `(best_variant, best_lift)` pair. -/
def best_step (control : Variant) (p : Variant × ℚ) (v : Variant) :
    Variant × ℚ :=
  if 0 < control.conversion_rate ∧ p.2 < lift_vs control v ∧ v ≠ control then
    (v, lift_vs control v)
  else p

/-- The pooled proportion `(conv_c + conv_b) / (n_c + n_b)` of the
two-proportion z-test (the claim's formula). -/
def pooled (control treatment : Variant) : ℚ :=
  ((control.conversions + treatment.conversions : ℕ) : ℚ) /
    ((control.impressions + treatment.impressions : ℕ) : ℚ)

/-- The z statistic of the claim:
`|rate_b − rate_c| / sqrt(p(1−p)(1/n_c + 1/n_b))`. -/
noncomputable def zval (control treatment : Variant) : ℝ :=
  |((treatment.conversion_rate : ℝ) - (control.conversion_rate : ℝ))| /
    Real.sqrt ((pooled control treatment : ℝ) *
      (1 - (pooled control treatment : ℝ)) *
      (1 / (control.impressions : ℝ) + 1 / (treatment.impressions : ℝ)))

/-- The per-experiment variant weight lists visible in a state (used to
express that no operation after creation changes any weight). -/
def weights_of (s : ABState) (i : String) : Option (List ℚ) :=
  (s.experiments i).map (fun e => e.variants.map Variant.weight)

/-- Concrete fixtures used by witnesses and counterexamples. -/
def mZero : String → ℕ := fun _ => 0

def ctrl0 : Variant :=
  { name := "control", weight := 1/2, config := "A", impressions := 0, conversions := 0 }

def trt0 : Variant :=
  { name := "treatment", weight := 1/2, config := "B", impressions := 0, conversions := 0 }

/-- A running two-variant experiment. -/
def expRun : Experiment :=
  { id := "e1", name := "exp", description := "d", variants := [ctrl0, trt0]
    status := ExperimentStatus.running, createdAt := 0, startedAt := some 1
    endedAt := none, targetSampleSize := 1000 }

/-- A completed two-variant experiment whose `startedAt` is already set. -/
def expDone : Experiment :=
  { expRun with status := ExperimentStatus.completed, startedAt := some 3, endedAt := some 5 }

/-- Service state: enabled, default variant `"default"`, sample rate `1/2`,
one running experiment, no assignments. -/
def sGate : ABState :=
  { enabled := true, defaultVariant := "default", sampleRate := 1/2
    experiments := fun i => if i = "e1" then some expRun else none
    userAssignments := fun _ _ => none }

/-- Service state holding only the completed experiment. -/
def sDone : ABState :=
  { sGate with experiments := fun i => if i = "e1" then some expDone else none }

/-- Service state with a stored assignment of user `"u"` to `"treatment"`. -/
def sAssigned : ABState :=
  { sGate with userAssignments := fun u x =>
      if u = "u" ∧ x = "e1" then some "treatment" else none }

/-- Service state with no experiments at all. -/
def sEmpty : ABState :=
  { enabled := false, defaultVariant := "control", sampleRate := 1
    experiments := fun _ => none, userAssignments := fun _ _ => none }

/-- `record_conversion`: `False` when the experiment is unknown, the user has
no stored assignment for it, or the stored name matches no variant;
otherwise increment the matching variant's conversion counter and return
`True`. -/
def record_conversion (s : ABState) (experiment_id user_id : String) :
    Bool × ABState :=
  match s.experiments experiment_id with
  | none => (false, s)
  | some e =>
    match s.userAssignments user_id experiment_id with
    | none => (false, s)
    | some variant_name =>
      match bump_conversion_by_name variant_name e.variants with
      | none => (false, s)
      | some vs =>
        let e' := { e with variants := vs }
        (true, { s with experiments := fun i =>
            if i = experiment_id then some e' else s.experiments i })

/-! ### Helper lemmas about the list operations -/

theorem build_variant_objects_ok (total : ℚ) (h : total ≠ 0)
    (variants : List VariantInput) :
    build_variant_objects total variants =
      Except.ok (variants.map (fun v =>
        ({ name := v.name, weight := v.effWeight / total, config := v.config,
           impressions := 0, conversions := 0 } : Variant))) := by
  induction variants with
  | nil => rfl
  | cons v rest ih => simp [build_variant_objects, h, ih, Except.map]

theorem build_variant_objects_error (total : ℚ) (h : total = 0)
    (v : VariantInput) (rest : List VariantInput) :
    build_variant_objects total (v :: rest) = Except.error "ZeroDivisionError" := by
  simp [build_variant_objects, h]

theorem sum_map_div (l : List ℚ) (c : ℚ) :
    (l.map (fun x => x / c)).sum = l.sum / c := by
  induction l with
  | nil => simp
  | cons a l ih => simp [ih, add_div]

theorem bump_impression_length (idx : ℕ) (vs : List Variant) :
    (bump_impression idx vs).length = vs.length := by
  induction vs generalizing idx with
  | nil => simp [bump_impression]
  | cons v rest ih =>
    cases idx with
    | zero => simp [bump_impression]
    | succ n => simp [bump_impression, ih]

theorem bump_impression_map_name (idx : ℕ) (vs : List Variant) :
    (bump_impression idx vs).map Variant.name = vs.map Variant.name := by
  induction vs generalizing idx with
  | nil => simp [bump_impression]
  | cons v rest ih =>
    cases idx with
    | zero => simp [bump_impression]
    | succ n => simp [bump_impression, ih]

theorem bump_impression_map_weight (idx : ℕ) (vs : List Variant) :
    (bump_impression idx vs).map Variant.weight = vs.map Variant.weight := by
  induction vs generalizing idx with
  | nil => simp [bump_impression]
  | cons v rest ih =>
    cases idx with
    | zero => simp [bump_impression]
    | succ n => simp [bump_impression, ih]

theorem bump_impression_getD (vs : List Variant) (idx j : ℕ)
    (h : idx < vs.length) :
    (bump_impression idx vs).getD j default =
      if j = idx then
        { vs.getD idx default with
          impressions := (vs.getD idx default).impressions + 1 }
      else vs.getD j default := by
  induction vs generalizing idx j with
  | nil => simp at h
  | cons v rest ih =>
    cases idx with
    | zero =>
      cases j with
      | zero => simp [bump_impression]
      | succ k => simp [bump_impression]
    | succ n =>
      cases j with
      | zero => simp [bump_impression]
      | succ k =>
        have hn : n < rest.length := by simpa using h
        show (bump_impression n rest).getD k default = _
        rw [List.getD_cons_succ, List.getD_cons_succ, ih n k hn]
        simp only [add_left_inj]

theorem bump_impression_sum (vs : List Variant) (idx : ℕ)
    (h : idx < vs.length) :
    ((bump_impression idx vs).map Variant.impressions).sum =
      (vs.map Variant.impressions).sum + 1 := by
  induction vs generalizing idx with
  | nil => simp at h
  | cons v rest ih =>
    cases idx with
    | zero => simp [bump_impression]; omega
    | succ n =>
      have hn : n < rest.length := by simpa using h
      simp [bump_impression, ih n hn]; omega

theorem find_variant_by_name_name (nm : String) (vs : List Variant)
    (v : Variant) (h : find_variant_by_name nm vs = some v) : v.name = nm := by
  induction vs with
  | nil => simp [find_variant_by_name] at h
  | cons w rest ih =>
    by_cases hw : w.name = nm
    · simp [find_variant_by_name, hw] at h
      subst h; exact hw
    · simp [find_variant_by_name, hw] at h
      exact ih h

theorem find_variant_by_name_getD (vs : List Variant) (idx : ℕ)
    (hnd : (vs.map Variant.name).Nodup) (h : idx < vs.length) :
    find_variant_by_name ((vs.getD idx default).name) vs =
      some (vs.getD idx default) := by
  induction vs generalizing idx with
  | nil => simp at h
  | cons v rest ih =>
    have hnd' : (rest.map Variant.name).Nodup := (List.nodup_cons.mp hnd).2
    have hni : v.name ∉ rest.map Variant.name := (List.nodup_cons.mp hnd).1
    cases idx with
    | zero => simp [find_variant_by_name]
    | succ n =>
      have hn : n < rest.length := by simpa using h
      have hmem : (rest.getD n default).name ∈ rest.map Variant.name := by
        refine List.mem_map.mpr ⟨rest.getD n default, ?_, rfl⟩
        rw [List.getD_eq_getElem rest default hn]
        exact List.getElem_mem hn
      have hne : ¬ v.name = (rest.getD n default).name := by
        intro hcontra
        exact hni (hcontra ▸ hmem)
      simp only [List.getD_cons_succ, find_variant_by_name]
      rw [if_neg hne]
      exact ih n hnd' hn

theorem select_variant_idx_lt (vs : List Variant) (normalized cum : ℚ)
    (i fb N : ℕ) (hfb : fb < N) (hi : i + vs.length ≤ N) :
    select_variant_idx normalized cum i fb vs < N := by
  induction vs generalizing cum i with
  | nil => simpa [select_variant_idx] using hfb
  | cons v rest ih =>
    simp only [select_variant_idx]
    split
    · simp at hi; omega
    · exact ih (cum + v.weight) (i + 1) (by simp at hi; omega)

theorem assign_variant_idx_lt (md5val : String → ℕ) (e : Experiment)
    (user_id : String) (h : e.variants ≠ []) :
    assign_variant_idx md5val e user_id < e.variants.length := by
  have hl : 0 < e.variants.length := List.length_pos.mpr h
  exact select_variant_idx_lt _ _ _ _ _ _ (by omega) (by omega)

theorem bump_conversion_by_name_eq_map (nm : String) (vs : List Variant)
    (hmem : nm ∈ vs.map Variant.name) (hnd : (vs.map Variant.name).Nodup) :
    bump_conversion_by_name nm vs =
      some (vs.map fun v =>
        if v.name = nm then { v with conversions := v.conversions + 1 } else v) := by
  induction vs with
  | nil => simp at hmem
  | cons v rest ih =>
    have hnd' : (rest.map Variant.name).Nodup := (List.nodup_cons.mp hnd).2
    have hni : v.name ∉ rest.map Variant.name := (List.nodup_cons.mp hnd).1
    by_cases hv : v.name = nm
    · have hrest : rest.map (fun v =>
          if v.name = nm then { v with conversions := v.conversions + 1 } else v)
          = rest.map id := by
        refine List.map_congr_left ?_
        intro u hu
        have : u.name ≠ nm := by
          intro hc
          exact hni (hv ▸ hc ▸ List.mem_map.mpr ⟨u, hu, rfl⟩)
        simp [this]
      simp [bump_conversion_by_name, hv, hrest]
    · have hmem' : nm ∈ rest.map Variant.name := by
        rcases List.mem_map.mp hmem with ⟨u, hu, hun⟩
        rcases List.mem_cons.mp hu with h0 | h0
        · exact absurd (h0 ▸ hun) hv
        · exact List.mem_map.mpr ⟨u, h0, hun⟩
      simp [bump_conversion_by_name, hv, ih hmem' hnd']

/-- If a stored assignment resolves to a variant of the experiment,
`get_variant` returns it and leaves the state untouched, whatever the
sampling draw. -/
theorem get_variant_stored (md5val : String → ℕ) (s : ABState)
    (eid uid : String) (r : ℚ) (e : Experiment) (v : Variant)
    (hen : s.enabled = true)
    (he : s.experiments eid = some e)
    (hst : e.status = ExperimentStatus.running)
    (hv : (s.userAssignments uid eid).bind
        (fun nm => find_variant_by_name nm e.variants) = some v) :
    get_variant md5val s eid uid r = ((v.name, v.config), s) := by
  simp [get_variant, hen, he, hst, hv]

/-- C8: `assign` on an existing experiment in any non-Running status returns
the configured default variant and leaves the entire state unchanged: no
assignment is stored and no counter is incremented. -/
theorem get_variant_non_running_default (md5val : String → ℕ) (s : ABState)
    (eid uid : String) (r : ℚ) (e : Experiment)
    (he : s.experiments eid = some e)
    (hst : e.status ≠ ExperimentStatus.running) :
    get_variant md5val s eid uid r = ((s.defaultVariant, ""), s) := by
  cases hen : s.enabled
  · simp [get_variant, hen]
  · simp [get_variant, hen, he, hst]

theorem get_variant_non_running_default_witness :
    get_variant mZero sDone "e1" "u" 0 = ((sDone.defaultVariant, ""), sDone) :=
  get_variant_non_running_default mZero sDone "e1" "u" 0 expDone rfl (by decide)

/-- C10 counterexample: the division by `total_weight` sits *inside* the
per-variant loop, so the empty variant list — whose weight sum is 0 — never
executes a division: creation raises nothing, returns an experiment with
zero variants and registers it.  The claim that *every* zero-sum variant
list raises a division-by-zero error is therefore false at the input `[]`. -/
theorem create_experiment_empty_list_registers :
    (([] : List VariantInput).map VariantInput.effWeight).sum = 0 ∧
    (create_experiment sEmpty "e0" "n" "d" [] 1000 0).toOption.map
        (fun p => (p.1.variants, (p.2.experiments "e0").isSome)) =
      some ([], true) := by
  constructor
  · rfl
  · simp only [create_experiment, build_variant_objects]
    norm_num
    exact ⟨_, _, rfl, rfl, by simp⟩

/-- C10 amended: for every *nonempty* variant list whose effective weights
sum to 0, `create_experiment` raises `ZeroDivisionError` (the error branch
of the model) instead of returning an experiment or an
`InvalidConfiguration` failure — the first loop iteration divides by the
zero total; the empty list instead creates and registers a zero-variant
experiment. -/
theorem create_experiment_zero_weight_division_error (s : ABState)
    (eid nm d : String) (variants : List VariantInput) (tss now : ℕ)
    (hne : variants ≠ [])
    (h : (variants.map VariantInput.effWeight).sum = 0) :
    create_experiment s eid nm d variants tss now =
      Except.error "ZeroDivisionError" := by
  obtain ⟨v, rest, rfl⟩ := List.exists_cons_of_ne_nil hne
  simp only [create_experiment]
  rw [build_variant_objects_error _ h v rest]

theorem create_experiment_zero_weight_division_error_witness :
    create_experiment sEmpty "e9" "n" "d"
      [⟨"a", some 0, "x"⟩, ⟨"b", some 0, "y"⟩] 1000 0 =
      Except.error "ZeroDivisionError" :=
  create_experiment_zero_weight_division_error sEmpty "e9" "n" "d"
    [⟨"a", some 0, "x"⟩, ⟨"b", some 0, "y"⟩] 1000 0 (by simp)
    (by simp [VariantInput.effWeight])

/-- C6 counterexample: `start_experiment` on a *Completed* experiment whose
`startedAt` was set long ago returns `True`, moves it back to Running, and
overwrites `startedAt` with the current clock — contradicting the claim
that only Draft/Paused experiments transition to Running, that terminal
states are never left, and that `startedAt` is set only on the first
transition. -/
theorem start_experiment_restarts_completed :
    expDone.status = ExperimentStatus.completed ∧
    expDone.startedAt = some 3 ∧
    (start_experiment sDone "e1" 7).1 = true ∧
    ((start_experiment sDone "e1" 7).2.experiments "e1").map Experiment.status =
      some ExperimentStatus.running ∧
    ((start_experiment sDone "e1" 7).2.experiments "e1").map Experiment.startedAt =
      some (some 7) := by decide

/-- C6 amended: `start_experiment` returns `False` and changes nothing for
an unknown id; for any existing experiment — whatever its status, including
the terminal Completed and Cancelled — it returns `True`, sets the status
to Running and overwrites `startedAt` with the current time on every call,
leaving all other experiments and the assignments untouched. -/
theorem start_experiment_unconditional (s : ABState) (eid : String) (now : ℕ) :
    (s.experiments eid = none → start_experiment s eid now = (false, s)) ∧
    (∀ e, s.experiments eid = some e →
      (start_experiment s eid now).1 = true ∧
      (start_experiment s eid now).2.experiments eid =
        some { e with status := ExperimentStatus.running, startedAt := some now } ∧
      (∀ i, i ≠ eid → (start_experiment s eid now).2.experiments i = s.experiments i) ∧
      (start_experiment s eid now).2.userAssignments = s.userAssignments) := by
  constructor
  · intro h
    simp [start_experiment, h]
  · intro e he
    refine ⟨by simp [start_experiment, he], by simp [start_experiment, he], ?_, by simp [start_experiment, he]⟩
    intro i hi
    simp [start_experiment, he, hi]

theorem start_experiment_unconditional_witness :
    (start_experiment sDone "e1" 7).1 = true ∧
    (start_experiment sDone "e1" 7).2.experiments "e1" =
      some { expDone with status := ExperimentStatus.running, startedAt := some 7 } :=
  ⟨((start_experiment_unconditional sDone "e1" 7).2 expDone rfl).1,
   ((start_experiment_unconditional sDone "e1" 7).2 expDone rfl).2.1⟩

/-- C3 counterexample: `create_experiment` with a *single* variant succeeds —
it returns the created experiment (with one variant) and registers it, so
creation with fewer than 2 variants neither fails with
`InvalidConfiguration` nor leaves the registry unchanged. -/
theorem create_experiment_accepts_single_variant :
    (create_experiment sEmpty "e1" "n" "d" [⟨"only", some 1, "cfg"⟩] 1000 0).toOption.map
        (fun p => (p.1.variants.length, (p.2.experiments "e1").isSome)) =
      some (1, true) := by
  norm_num [create_experiment, build_variant_objects, VariantInput.effWeight]
  exact ⟨_, _, rfl, rfl, by simp⟩

/-- C3 amended: `create_experiment` performs no validation at all: for every
variant list whose effective weights have a nonzero sum — including lists
with fewer than 2 variants and lists containing negative weights — it
returns the created Draft experiment and registers it under its id (other
registry entries unchanged).  Only a nonempty list with zero weight sum
fails, with a division error, not `InvalidConfiguration` (see the zero-sum
theorems). -/
theorem create_experiment_no_validation (s : ABState) (eid nm d : String)
    (variants : List VariantInput) (tss now : ℕ)
    (h : (variants.map VariantInput.effWeight).sum ≠ 0) :
    ∃ e s', create_experiment s eid nm d variants tss now = Except.ok (e, s') ∧
      s'.experiments eid = some e ∧
      (∀ i, i ≠ eid → s'.experiments i = s.experiments i) ∧
      e.status = ExperimentStatus.draft ∧
      e.variants.length = variants.length := by
  simp only [create_experiment, build_variant_objects_ok _ h]
  exact ⟨_, _, rfl, by simp, fun i hi => by simp [hi], rfl, by simp⟩

theorem create_experiment_no_validation_witness :
    ∃ e s', create_experiment sEmpty "e1" "n" "d" [⟨"a", some (-1), "c"⟩] 1000 0 =
        Except.ok (e, s') ∧
      s'.experiments "e1" = some e ∧
      (∀ i, i ≠ "e1" → s'.experiments i = sEmpty.experiments i) ∧
      e.status = ExperimentStatus.draft ∧
      e.variants.length = [(⟨"a", some (-1), "c"⟩ : VariantInput)].length :=
  create_experiment_no_validation sEmpty "e1" "n" "d" [⟨"a", some (-1), "c"⟩]
    1000 0 (by norm_num [VariantInput.effWeight])

/-- C9: `record_conversion` on an existing experiment: with no stored
assignment for the (user, experiment) pair it returns `False` and leaves
the whole state (all counters, all assignments) unchanged; with a stored
assignment naming one of the experiment's variants it returns `True` and
increments exactly that variant's conversion counter by one, leaving every
other variant, every other experiment and all assignments unchanged. -/
theorem record_conversion_spec (s : ABState) (eid uid : String) (e : Experiment)
    (he : s.experiments eid = some e) :
    (s.userAssignments uid eid = none → record_conversion s eid uid = (false, s)) ∧
    (∀ nm, s.userAssignments uid eid = some nm →
      nm ∈ e.variants.map Variant.name →
      (e.variants.map Variant.name).Nodup →
      (record_conversion s eid uid).1 = true ∧
      (record_conversion s eid uid).2.experiments eid =
        some { e with variants := e.variants.map (fun v =>
          if v.name = nm then { v with conversions := v.conversions + 1 } else v) } ∧
      (∀ i, i ≠ eid → (record_conversion s eid uid).2.experiments i = s.experiments i) ∧
      (record_conversion s eid uid).2.userAssignments = s.userAssignments) := by
  constructor
  · intro h
    simp [record_conversion, he, h]
  · intro nm ha hmem hnd
    have hb := bump_conversion_by_name_eq_map nm e.variants hmem hnd
    refine ⟨by simp [record_conversion, he, ha, hb], by simp [record_conversion, he, ha, hb], ?_, by simp [record_conversion, he, ha, hb]⟩
    intro i hi
    simp [record_conversion, he, ha, hb, hi]

theorem record_conversion_spec_witness :
    (record_conversion sAssigned "e1" "u").1 = true ∧
    (record_conversion sAssigned "e1" "u").2.experiments "e1" =
      some { expRun with variants := expRun.variants.map (fun v =>
        if v.name = "treatment" then { v with conversions := v.conversions + 1 } else v) } :=
  ⟨((record_conversion_spec sAssigned "e1" "u" expRun rfl).2 "treatment"
      rfl (by decide) (by decide)).1,
   ((record_conversion_spec sAssigned "e1" "u" expRun rfl).2 "treatment"
      rfl (by decide) (by decide)).2.1⟩

/-- The fresh-assignment branch of `get_variant`: enabled, running, no
stored assignment, sampling gate passed — the call picks the hash-selected
variant, stores the assignment and bumps that variant's impressions. -/
theorem get_variant_fresh (md5val : String → ℕ) (s : ABState)
    (eid uid : String) (r : ℚ) (e : Experiment)
    (hen : s.enabled = true)
    (he : s.experiments eid = some e)
    (hst : e.status = ExperimentStatus.running)
    (hnone : s.userAssignments uid eid = none)
    (hr : ¬ r > s.sampleRate) :
    get_variant md5val s eid uid r =
      (((e.variants.getD (assign_variant_idx md5val e uid) default).name,
        (e.variants.getD (assign_variant_idx md5val e uid) default).config),
       { s with
          experiments := fun i =>
            if i = eid then
              some { e with variants :=
                bump_impression (assign_variant_idx md5val e uid) e.variants }
            else s.experiments i
          userAssignments := fun u x =>
            if u = uid ∧ x = eid then
              some (e.variants.getD (assign_variant_idx md5val e uid) default).name
            else s.userAssignments u x }) := by
  simp [get_variant, hen, he, hst, hnone, hr]

/-- C1 (code defect): the sampling-gate decision of `get_variant` is a fresh
`random.random()` draw on every call, not a function of
(subjectId, experimentId).  On the same starting state `sGate` (running
experiment `"e1"`, sample rate 1/2, no assignment stored for `"u"`) and for
every hash function: a call whose draw is 9/10 is excluded and returns the
default variant with the state unchanged, while a call whose draw is 1/10
assigns and returns one of the experiment's variants — never the default.
Two runs of `get_variant` with the same arguments and the same starting
state can therefore return different variants. -/
theorem get_variant_sampling_gate_depends_on_draw (md5val : String → ℕ) :
    get_variant md5val sGate "e1" "u" (9/10) = (("default", ""), sGate) ∧
    (get_variant md5val sGate "e1" "u" (1/10)).1.1 ≠ "default" := by
  have hen : sGate.enabled = true := rfl
  have he : sGate.experiments "e1" = some expRun := rfl
  have hst : expRun.status = ExperimentStatus.running := rfl
  have hnone : sGate.userAssignments "u" "e1" = none := rfl
  constructor
  · have hr : (9/10 : ℚ) > sGate.sampleRate := by norm_num [sGate]
    simp [get_variant, hen, he, hst, hnone, hr]
    rfl
  · have hr : ¬ (1/10 : ℚ) > sGate.sampleRate := by norm_num [sGate]
    rw [get_variant_fresh md5val sGate "e1" "u" (1/10) expRun hen he hst hnone hr]
    show (expRun.variants.getD (assign_variant_idx md5val expRun "u") default).name ≠ "default"
    generalize assign_variant_idx md5val expRun "u" = idx
    rcases idx with _ | _ | n
    · decide
    · decide
    · show (([ctrl0, trt0] : List Variant).getD (n + 2) default).name ≠ "default"
      rw [List.getD_cons_succ, List.getD_cons_succ, List.getD_nil]
      decide

theorem get_variant_sampling_gate_depends_on_draw_witness :
    get_variant mZero sGate "e1" "u" (9/10) = (("default", ""), sGate) ∧
    (get_variant mZero sGate "e1" "u" (1/10)).1.1 ≠ "default" :=
  get_variant_sampling_gate_depends_on_draw mZero

/-- C2: idempotent impression counting.  On a Running experiment with
unique variant names, a first `assign` call for a fresh (user, experiment)
pair that passes the sampling gate increments the chosen variant's
impression counter by exactly one (total impressions grow by exactly 1 and
no other variant changes), stores the assignment, and from then on *every*
further `assign` call for that pair — whatever its random draw — returns
the stored variant's name and config and leaves the state completely
unchanged, so N calls increment the counter by exactly 1, not N. -/
theorem get_variant_impression_idempotent (md5val : String → ℕ) (s : ABState)
    (eid uid : String) (r₁ : ℚ) (e : Experiment)
    (hen : s.enabled = true)
    (he : s.experiments eid = some e)
    (hst : e.status = ExperimentStatus.running)
    (hnone : s.userAssignments uid eid = none)
    (hr : ¬ r₁ > s.sampleRate)
    (hne : e.variants ≠ [])
    (hnd : (e.variants.map Variant.name).Nodup) :
    ∃ v e₁ s₁ j,
      get_variant md5val s eid uid r₁ = ((v.name, v.config), s₁) ∧
      j < e.variants.length ∧
      v = e.variants.getD j default ∧
      s₁.experiments eid = some e₁ ∧
      e₁.status = ExperimentStatus.running ∧
      e₁.variants.length = e.variants.length ∧
      (∀ k, e₁.variants.getD k default =
        if k = j then { v with impressions := v.impressions + 1 }
        else e.variants.getD k default) ∧
      e₁.total_impressions = e.total_impressions + 1 ∧
      (∀ i, i ≠ eid → s₁.experiments i = s.experiments i) ∧
      (∀ r₂, get_variant md5val s₁ eid uid r₂ = ((v.name, v.config), s₁)) ∧
      (∀ rs, iterate_get_variant md5val s₁ eid uid rs = s₁) := by
  have hidx : assign_variant_idx md5val e uid < e.variants.length :=
    assign_variant_idx_lt md5val e uid hne
  set idx := assign_variant_idx md5val e uid with hidxdef
  set chosen := e.variants.getD idx default with hchosendef
  set e₁ : Experiment := { e with variants := bump_impression idx e.variants }
    with he₁def
  set s₁ : ABState := { s with
      experiments := fun i => if i = eid then some e₁ else s.experiments i
      userAssignments := fun u x =>
        if u = uid ∧ x = eid then some chosen.name else s.userAssignments u x }
    with hs₁def
  have hcall : get_variant md5val s eid uid r₁ = ((chosen.name, chosen.config), s₁) :=
    get_variant_fresh md5val s eid uid r₁ e hen he hst hnone hr
  have hbumped : e₁.variants.getD idx default =
      { chosen with impressions := chosen.impressions + 1 } := by
    rw [he₁def]
    show (bump_impression idx e.variants).getD idx default = _
    rw [bump_impression_getD e.variants idx idx hidx, if_pos rfl]
  have hfind : find_variant_by_name chosen.name e₁.variants =
      some { chosen with impressions := chosen.impressions + 1 } := by
    have h2 : idx < e₁.variants.length := by
      show idx < (bump_impression idx e.variants).length
      rw [bump_impression_length]
      exact hidx
    have h3 : (e₁.variants.map Variant.name).Nodup := by
      show ((bump_impression idx e.variants).map Variant.name).Nodup
      rw [bump_impression_map_name]
      exact hnd
    have h4 := find_variant_by_name_getD e₁.variants idx h3 h2
    rw [hbumped] at h4
    exact h4
  have hrepeat : ∀ r₂, get_variant md5val s₁ eid uid r₂ =
      ((chosen.name, chosen.config), s₁) := by
    intro r₂
    have hb : (s₁.userAssignments uid eid).bind
        (fun nm => find_variant_by_name nm e₁.variants) =
        some { chosen with impressions := chosen.impressions + 1 } := by
      have ha : s₁.userAssignments uid eid = some chosen.name := by
        rw [hs₁def]
        simp
      rw [ha, Option.some_bind]
      exact hfind
    have := get_variant_stored md5val s₁ eid uid r₂ e₁
      { chosen with impressions := chosen.impressions + 1 }
      hen (by rw [hs₁def]; simp) hst hb
    exact this
  refine ⟨chosen, e₁, s₁, idx, hcall, hidx, rfl, ?_, hst, ?_, ?_, ?_, ?_, hrepeat, ?_⟩
  · rw [hs₁def]
    simp
  · show (bump_impression idx e.variants).length = e.variants.length
    exact bump_impression_length idx e.variants
  · intro k
    show (bump_impression idx e.variants).getD k default = _
    rw [bump_impression_getD e.variants idx k hidx]
  · show ((bump_impression idx e.variants).map Variant.impressions).sum =
      (e.variants.map Variant.impressions).sum + 1
    exact bump_impression_sum e.variants idx hidx
  · intro i hi
    rw [hs₁def]
    simp [hi]
  · intro rs
    induction rs with
    | nil => rfl
    | cons r rs ih =>
      show iterate_get_variant md5val (get_variant md5val s₁ eid uid r).2 eid uid rs = s₁
      rw [congrArg Prod.snd (hrepeat r)]
      exact ih

theorem get_variant_impression_idempotent_witness :
    ∃ v e₁ s₁ j,
      get_variant mZero sGate "e1" "u" 0 = ((v.name, v.config), s₁) ∧
      j < expRun.variants.length ∧
      v = expRun.variants.getD j default ∧
      s₁.experiments "e1" = some e₁ ∧
      e₁.status = ExperimentStatus.running ∧
      e₁.variants.length = expRun.variants.length ∧
      (∀ k, e₁.variants.getD k default =
        if k = j then { v with impressions := v.impressions + 1 }
        else expRun.variants.getD k default) ∧
      e₁.total_impressions = expRun.total_impressions + 1 ∧
      (∀ i, i ≠ "e1" → s₁.experiments i = sGate.experiments i) ∧
      (∀ r₂, get_variant mZero s₁ "e1" "u" r₂ = ((v.name, v.config), s₁)) ∧
      (∀ rs, iterate_get_variant mZero s₁ "e1" "u" rs = s₁) :=
  get_variant_impression_idempotent mZero sGate "e1" "u" 0 expRun rfl rfl rfl rfl
    (by norm_num [sGate]) (by simp [expRun]) (by simp [expRun, ctrl0, trt0])

/-- The weight lists in any state are untouched by a conversion bump. -/
theorem bump_conversion_by_name_map_weight (nm : String) (vs vs' : List Variant)
    (h : bump_conversion_by_name nm vs = some vs') :
    vs'.map Variant.weight = vs.map Variant.weight := by
  induction vs generalizing vs' with
  | nil => simp [bump_conversion_by_name] at h
  | cons v rest ih =>
    by_cases hv : v.name = nm
    · simp [bump_conversion_by_name, hv] at h
      subst h
      simp
    · simp [bump_conversion_by_name, hv] at h
      rcases h with ⟨l, hl, rfl⟩
      simp [ih l hl]

/-- C7: weight conservation.  Creation from any input whose effective
weights have a positive sum stores weights that sum to exactly 1 (each
input weight divided by the total), and none of the engine's subsequent
operations — `start_experiment`, `stop_experiment`, `get_variant`
(assignment + impression), `record_conversion` — changes any experiment's
variant-weight list, so the sum-to-1 property holds at all times after
creation. -/
theorem weights_sum_one_invariant :
    (∀ (s : ABState) (eid nm d : String) (variants : List VariantInput) (tss now : ℕ),
      0 < (variants.map VariantInput.effWeight).sum →
      ∃ e s', create_experiment s eid nm d variants tss now = Except.ok (e, s') ∧
        (e.variants.map Variant.weight).sum = 1 ∧
        weights_of s' eid = some (e.variants.map Variant.weight)) ∧
    (∀ s eid now i, weights_of (start_experiment s eid now).2 i = weights_of s i) ∧
    (∀ s eid now i, weights_of (stop_experiment s eid now).2 i = weights_of s i) ∧
    (∀ md5val s eid uid r i,
      weights_of (get_variant md5val s eid uid r).2 i = weights_of s i) ∧
    (∀ s eid uid i, weights_of (record_conversion s eid uid).2 i = weights_of s i) := by
  refine ⟨?_, ?_, ?_, ?_, ?_⟩
  · intro s eid nm d variants tss now hpos
    have hne : (variants.map VariantInput.effWeight).sum ≠ 0 := ne_of_gt hpos
    simp only [create_experiment, build_variant_objects_ok _ hne]
    refine ⟨_, _, rfl, ?_, ?_⟩
    · show ((variants.map _).map Variant.weight).sum = 1
      rw [List.map_map]
      have : (Variant.weight ∘ fun v : VariantInput =>
          ({ name := v.name,
             weight := v.effWeight / (variants.map VariantInput.effWeight).sum,
             config := v.config, impressions := 0, conversions := 0 } : Variant)) =
          fun v : VariantInput =>
            v.effWeight / (variants.map VariantInput.effWeight).sum := rfl
      rw [this]
      have h2 : (variants.map fun v : VariantInput =>
          v.effWeight / (variants.map VariantInput.effWeight).sum) =
          ((variants.map VariantInput.effWeight).map
            (fun x => x / (variants.map VariantInput.effWeight).sum)) := by
        rw [List.map_map]
        rfl
      rw [h2, sum_map_div, div_self hne]
    · simp [weights_of]
  · intro s eid now i
    cases he : s.experiments eid with
    | none => simp [start_experiment, he]
    | some e =>
      by_cases hi : i = eid
      · subst hi
        simp [start_experiment, he, weights_of]
      · simp [start_experiment, he, weights_of, hi]
  · intro s eid now i
    cases he : s.experiments eid with
    | none => simp [stop_experiment, he]
    | some e =>
      by_cases hi : i = eid
      · subst hi
        simp [stop_experiment, he, weights_of]
      · simp [stop_experiment, he, weights_of, hi]
  · intro md5val s eid uid r i
    cases hen : s.enabled with
    | false => simp [get_variant, hen]
    | true =>
      cases he : s.experiments eid with
      | none => simp [get_variant, hen, he]
      | some e =>
        by_cases hst : e.status = ExperimentStatus.running
        · cases hb : (s.userAssignments uid eid).bind
              (fun nm => find_variant_by_name nm e.variants) with
          | some v => simp [get_variant, hen, he, hst, hb]
          | none =>
            by_cases hr : r > s.sampleRate
            · simp [get_variant, hen, he, hst, hb, hr]
            · by_cases hi : i = eid
              · subst hi
                simp [get_variant, hen, he, hst, hb, hr, weights_of,
                  bump_impression_map_weight]
              · simp [get_variant, hen, he, hst, hb, hr, weights_of, hi]
        · simp [get_variant, hen, he, hst]
  · intro s eid uid i
    cases he : s.experiments eid with
    | none => simp [record_conversion, he]
    | some e =>
      cases ha : s.userAssignments uid eid with
      | none => simp [record_conversion, he, ha]
      | some nm =>
        cases hb : bump_conversion_by_name nm e.variants with
        | none => simp [record_conversion, he, ha, hb]
        | some vs =>
          by_cases hi : i = eid
          · subst hi
            simp [record_conversion, he, ha, hb, weights_of,
              bump_conversion_by_name_map_weight nm e.variants vs hb]
          · simp [record_conversion, he, ha, hb, weights_of, hi]

theorem weights_sum_one_invariant_witness :
    ∃ e s', create_experiment sEmpty "e1" "n" "d"
        [⟨"a", some 3, "x"⟩, ⟨"b", some 1, "y"⟩] 1000 0 = Except.ok (e, s') ∧
      (e.variants.map Variant.weight).sum = 1 ∧
      weights_of s' "e1" = some (e.variants.map Variant.weight) :=
  weights_sum_one_invariant.1 sEmpty "e1" "n" "d"
    [⟨"a", some 3, "x"⟩, ⟨"b", some 1, "y"⟩] 1000 0
    (by norm_num [VariantInput.effWeight])

/-- The per-variant breakdown built by the results loop: one
`variant_result_of` entry per variant, in order. -/
theorem results_loop_acc (c : Variant) (vs : List Variant) :
    ∀ (b : Variant) (l : ℚ) (acc : List VariantResult),
      (results_loop c b l acc vs).2.2 = acc.reverse ++ vs.map (variant_result_of c) := by
  induction vs with
  | nil => intro b l acc; simp [results_loop]
  | cons v rest ih =>
    intro b l acc
    by_cases hc : 0 < c.conversion_rate
    · by_cases hcond : l < lift_vs c v ∧ v ≠ c
      · simp [results_loop, hc, hcond, ih, variant_result_of]
      · simp [results_loop, hc, hcond, ih, variant_result_of]
    · simp [results_loop, hc, ih, variant_result_of]

/-- The `(best_variant, best_lift)` pair tracked by the results loop equals
a left fold of `best_step` (independent of the accumulator). -/
theorem results_loop_best (c : Variant) (vs : List Variant) :
    ∀ (b : Variant) (l : ℚ) (acc : List VariantResult),
      ((results_loop c b l acc vs).1, (results_loop c b l acc vs).2.1) =
        vs.foldl (best_step c) (b, l) := by
  induction vs with
  | nil => intro b l acc; simp [results_loop]
  | cons v rest ih =>
    intro b l acc
    by_cases hc : 0 < c.conversion_rate
    · by_cases hcond : l < lift_vs c v ∧ v ≠ c
      · simp [results_loop, hc, hcond, ih, best_step, List.foldl_cons]
      · simp [results_loop, hc, hcond, ih, best_step, List.foldl_cons]
    · simp [results_loop, hc, ih, best_step, List.foldl_cons]

/-- When the control conversion rate is not positive, the best-tracking fold
never replaces its argument. -/
theorem foldl_best_step_of_rate_nonpos (c : Variant)
    (hc : ¬ 0 < c.conversion_rate) (vs : List Variant) (p : Variant × ℚ) :
    vs.foldl (best_step c) p = p := by
  induction vs generalizing p with
  | nil => rfl
  | cons v rest ih => simp [List.foldl_cons, best_step, hc, ih]

/-- Characterization of the best-tracking fold with positive control rate:
the final best lift dominates every non-control lift and the initial lift,
and either nothing ever replaced the initial pair, or the final best is a
non-control element of the list whose lift equals the final best lift,
strictly exceeds the initial lift, and strictly exceeds every non-control
lift occurring before it (first-encountered wins on ties). -/
theorem foldl_best_step_spec (c : Variant) (hc : 0 < c.conversion_rate)
    (vs : List Variant) :
    ∀ (b : Variant) (l : ℚ),
      (∀ v ∈ vs, v ≠ c → lift_vs c v ≤ (vs.foldl (best_step c) (b, l)).2) ∧
      l ≤ (vs.foldl (best_step c) (b, l)).2 ∧
      (vs.foldl (best_step c) (b, l) = (b, l) ∨
        ∃ l₁ l₂, vs = l₁ ++ (vs.foldl (best_step c) (b, l)).1 :: l₂ ∧
          (vs.foldl (best_step c) (b, l)).1 ≠ c ∧
          lift_vs c (vs.foldl (best_step c) (b, l)).1 =
            (vs.foldl (best_step c) (b, l)).2 ∧
          l < (vs.foldl (best_step c) (b, l)).2 ∧
          ∀ v ∈ l₁, v ≠ c → lift_vs c v < (vs.foldl (best_step c) (b, l)).2) := by
  induction vs with
  | nil =>
    intro b l
    exact ⟨by simp, le_refl l, Or.inl rfl⟩
  | cons v rest ih =>
    intro b l
    rw [List.foldl_cons]
    by_cases hcond : l < lift_vs c v ∧ v ≠ c
    · have hstep : best_step c (b, l) v = (v, lift_vs c v) := by
        simp [best_step, hc, hcond]
      rw [hstep]
      obtain ⟨H1, H2, H3⟩ := ih v (lift_vs c v)
      refine ⟨?_, le_of_lt (lt_of_lt_of_le hcond.1 H2), ?_⟩
      · intro u hu hne
        rcases List.mem_cons.mp hu with rfl | hu'
        · exact H2
        · exact H1 u hu' hne
      · rcases H3 with heq | ⟨l₁, l₂, hsplit, hne, hlift, hlt, hpre⟩
        · right
          refine ⟨[], rest, ?_, ?_, ?_, ?_, ?_⟩
          · simp [heq]
          · rw [heq]; exact hcond.2
          · simp [heq]
          · rw [heq]; exact hcond.1
          · intro u hu; simp at hu
        · right
          refine ⟨v :: l₁, l₂, ?_, hne, hlift, lt_trans hcond.1 hlt, ?_⟩
          · rw [List.cons_append, ← hsplit]
          · intro u hu hune
            rcases List.mem_cons.mp hu with rfl | hu'
            · exact hlt
            · exact hpre u hu' hune
    · have hstep : best_step c (b, l) v = (b, l) := by
        simp only [best_step]
        rw [if_neg]
        intro hand
        exact hcond ⟨hand.2.1, hand.2.2⟩
      rw [hstep]
      obtain ⟨H1, H2, H3⟩ := ih b l
      refine ⟨?_, H2, ?_⟩
      · intro u hu hne
        rcases List.mem_cons.mp hu with rfl | hu'
        · have hnl : ¬ l < lift_vs c u := fun hl => hcond ⟨hl, hne⟩
          exact le_trans (le_of_not_lt hnl) H2
        · exact H1 u hu' hne
      · rcases H3 with heq | ⟨l₁, l₂, hsplit, hne, hlift, hlt, hpre⟩
        · exact Or.inl heq
        · right
          refine ⟨v :: l₁, l₂, ?_, hne, hlift, hlt, ?_⟩
          · rw [List.cons_append, ← hsplit]
          · intro u hu hune
            rcases List.mem_cons.mp hu with rfl | hu'
            · have hnl : ¬ l < lift_vs c u := fun hl => hcond ⟨hl, hune⟩
              exact lt_of_le_of_lt (le_of_not_lt hnl) hlt
            · exact hpre u hu' hune

/-- C4 counterexample: on a snapshot with control rate 1/2 (2 impressions,
1 conversion) and a single non-control variant with rate 1/4 (4
impressions, 1 conversion, lift −50%), `get_experiment_results` keeps the
*control* as `best_variant`, because the loop only replaces the running
best on a lift strictly greater than the initial `best_lift = 0`.  The
claim that best is always the non-control variant with the highest lift
(here: the treatment) is therefore false. -/
theorem get_experiment_results_best_not_noncontrol :
    (compute_best [⟨"control", 1/2, "", 2, 1⟩, ⟨"treatment", 1/2, "", 4, 1⟩]).map
        Prod.fst = some ⟨"control", 1/2, "", 2, 1⟩ ∧
    (⟨"treatment", 1/2, "", 4, 1⟩ : Variant) ≠ ⟨"control", 1/2, "", 2, 1⟩ := by
  constructor
  · show (some (results_loop _ _ 0 [] _)).map Prod.fst = _
    norm_num [results_loop, lift_vs, Variant.conversion_rate, variant_result_of]
  · simp

/-- C4 amended: on a snapshot `control :: rest`, `get_experiment_results`
builds one breakdown entry per variant whose lift is
`(rate − controlRate)/controlRate × 100` when the control rate is positive
and `0` otherwise; the tracked `(best_variant, best_lift)` pair satisfies:
with non-positive control rate it stays `(control, 0)`; with positive
control rate, either every variant distinct from the control has lift ≤ 0
and the pair stays `(control, 0)`, or the best is a variant of the list
distinct from the control whose lift is positive, equals `best_lift`, is
maximal among the lifts of all variants distinct from the control, and
strictly exceeds the lift of every earlier such variant (ties broken by
list order — first encountered wins). -/
theorem get_experiment_results_best_spec (c : Variant) (rest : List Variant) :
    compute_best (c :: rest) = some (results_loop c c 0 [] (c :: rest)) ∧
    (results_loop c c 0 [] (c :: rest)).2.2 = (c :: rest).map (variant_result_of c) ∧
    (¬ 0 < c.conversion_rate →
      (results_loop c c 0 [] (c :: rest)).1 = c ∧
      (results_loop c c 0 [] (c :: rest)).2.1 = 0) ∧
    (0 < c.conversion_rate →
      (((results_loop c c 0 [] (c :: rest)).1 = c ∧
        (results_loop c c 0 [] (c :: rest)).2.1 = 0 ∧
        ∀ v ∈ c :: rest, v ≠ c → lift_vs c v ≤ 0) ∨
       (∃ l₁ l₂, c :: rest = l₁ ++ (results_loop c c 0 [] (c :: rest)).1 :: l₂ ∧
         (results_loop c c 0 [] (c :: rest)).1 ≠ c ∧
         lift_vs c (results_loop c c 0 [] (c :: rest)).1 =
           (results_loop c c 0 [] (c :: rest)).2.1 ∧
         0 < (results_loop c c 0 [] (c :: rest)).2.1 ∧
         (∀ v ∈ c :: rest, v ≠ c →
           lift_vs c v ≤ (results_loop c c 0 [] (c :: rest)).2.1) ∧
         (∀ v ∈ l₁, v ≠ c →
           lift_vs c v < (results_loop c c 0 [] (c :: rest)).2.1)))) := by
  have hbest := results_loop_best c (c :: rest) c 0 []
  have hR1 : (results_loop c c 0 [] (c :: rest)).1 =
      ((c :: rest).foldl (best_step c) (c, 0)).1 := congrArg Prod.fst hbest
  have hR2 : (results_loop c c 0 [] (c :: rest)).2.1 =
      ((c :: rest).foldl (best_step c) (c, 0)).2 := congrArg Prod.snd hbest
  refine ⟨rfl, by simpa using results_loop_acc c (c :: rest) c 0 [], ?_, ?_⟩
  · intro hc
    have h0 := foldl_best_step_of_rate_nonpos c hc (c :: rest) (c, 0)
    rw [hR1, hR2, h0]
    exact ⟨rfl, rfl⟩
  · intro hc
    obtain ⟨H1, H2, H3⟩ := foldl_best_step_spec c hc (c :: rest) c 0
    rw [hR1, hR2]
    rcases H3 with heq | ⟨l₁, l₂, hsplit, hne, hlift, hlt, hpre⟩
    · left
      rw [heq]
      refine ⟨rfl, rfl, ?_⟩
      intro v hv hvne
      have := H1 v hv hvne
      rwa [heq] at this
    · right
      exact ⟨l₁, l₂, hsplit, hne, hlift, hlt, H1, hpre⟩

theorem get_experiment_results_best_spec_witness :
    ((results_loop (⟨"c", 1/2, "", 2, 1⟩ : Variant) ⟨"c", 1/2, "", 2, 1⟩ 0 []
        [⟨"c", 1/2, "", 2, 1⟩, ⟨"t", 1/2, "", 4, 3⟩]).1 = ⟨"c", 1/2, "", 2, 1⟩ ∧
      (results_loop (⟨"c", 1/2, "", 2, 1⟩ : Variant) ⟨"c", 1/2, "", 2, 1⟩ 0 []
        [⟨"c", 1/2, "", 2, 1⟩, ⟨"t", 1/2, "", 4, 3⟩]).2.1 = 0 ∧
      ∀ v ∈ [(⟨"c", 1/2, "", 2, 1⟩ : Variant), ⟨"t", 1/2, "", 4, 3⟩],
        v ≠ ⟨"c", 1/2, "", 2, 1⟩ → lift_vs ⟨"c", 1/2, "", 2, 1⟩ v ≤ 0) ∨
    (∃ l₁ l₂, [(⟨"c", 1/2, "", 2, 1⟩ : Variant), ⟨"t", 1/2, "", 4, 3⟩] =
        l₁ ++ (results_loop (⟨"c", 1/2, "", 2, 1⟩ : Variant) ⟨"c", 1/2, "", 2, 1⟩ 0 []
          [⟨"c", 1/2, "", 2, 1⟩, ⟨"t", 1/2, "", 4, 3⟩]).1 :: l₂ ∧
      (results_loop (⟨"c", 1/2, "", 2, 1⟩ : Variant) ⟨"c", 1/2, "", 2, 1⟩ 0 []
        [⟨"c", 1/2, "", 2, 1⟩, ⟨"t", 1/2, "", 4, 3⟩]).1 ≠ ⟨"c", 1/2, "", 2, 1⟩ ∧
      lift_vs ⟨"c", 1/2, "", 2, 1⟩
          (results_loop (⟨"c", 1/2, "", 2, 1⟩ : Variant) ⟨"c", 1/2, "", 2, 1⟩ 0 []
            [⟨"c", 1/2, "", 2, 1⟩, ⟨"t", 1/2, "", 4, 3⟩]).1 =
        (results_loop (⟨"c", 1/2, "", 2, 1⟩ : Variant) ⟨"c", 1/2, "", 2, 1⟩ 0 []
          [⟨"c", 1/2, "", 2, 1⟩, ⟨"t", 1/2, "", 4, 3⟩]).2.1 ∧
      0 < (results_loop (⟨"c", 1/2, "", 2, 1⟩ : Variant) ⟨"c", 1/2, "", 2, 1⟩ 0 []
        [⟨"c", 1/2, "", 2, 1⟩, ⟨"t", 1/2, "", 4, 3⟩]).2.1 ∧
      (∀ v ∈ [(⟨"c", 1/2, "", 2, 1⟩ : Variant), ⟨"t", 1/2, "", 4, 3⟩],
        v ≠ ⟨"c", 1/2, "", 2, 1⟩ →
          lift_vs ⟨"c", 1/2, "", 2, 1⟩ v ≤
            (results_loop (⟨"c", 1/2, "", 2, 1⟩ : Variant) ⟨"c", 1/2, "", 2, 1⟩ 0 []
              [⟨"c", 1/2, "", 2, 1⟩, ⟨"t", 1/2, "", 4, 3⟩]).2.1) ∧
      (∀ v ∈ l₁, v ≠ ⟨"c", 1/2, "", 2, 1⟩ →
        lift_vs ⟨"c", 1/2, "", 2, 1⟩ v <
          (results_loop (⟨"c", 1/2, "", 2, 1⟩ : Variant) ⟨"c", 1/2, "", 2, 1⟩ 0 []
            [⟨"c", 1/2, "", 2, 1⟩, ⟨"t", 1/2, "", 4, 3⟩]).2.1)) :=
  (get_experiment_results_best_spec ⟨"c", 1/2, "", 2, 1⟩ [⟨"t", 1/2, "", 4, 3⟩]).2.2.2
    (by norm_num [Variant.conversion_rate])

/-- C5 counterexample: with 100 impressions and 150 conversions on each arm
(reachable, since `record_conversion` increments on every call and a
subject can convert repeatedly), both arms pass the 100-impression floor
and the pooled proportion is 3/2 — neither 0 nor 1 — yet the code returns
no verdict at all: `math.sqrt` is applied to the negative number
p(1−p)(1/n₁+1/n₂) and raises `ValueError` (the model's `none`), so "it is
significant exactly when z ≥ 1.96" fails at this input. -/
theorem calculate_significance_crash :
    ¬((⟨"control", 1/2, "", 100, 150⟩ : Variant).impressions < 100 ∨
      (⟨"treatment", 1/2, "", 100, 150⟩ : Variant).impressions < 100) ∧
    pooled ⟨"control", 1/2, "", 100, 150⟩ ⟨"treatment", 1/2, "", 100, 150⟩ ≠ 0 ∧
    pooled ⟨"control", 1/2, "", 100, 150⟩ ⟨"treatment", 1/2, "", 100, 150⟩ ≠ 1 ∧
    calculate_significance ⟨"control", 1/2, "", 100, 150⟩
      ⟨"treatment", 1/2, "", 100, 150⟩ = none := by
  refine ⟨by norm_num, by norm_num [pooled], by norm_num [pooled], ?_⟩
  simp only [calculate_significance]
  norm_num

/-- C5 amended: `_calculate_significance` between control and best: if
either arm has fewer than 100 impressions it returns (not significant,
confidence 0); with both arms at ≥100 impressions, if the pooled proportion
p = (conv_c+conv_b)/(n_c+n_b) is 0 or 1 it returns (not significant,
confidence 0); and whenever p is neither 0 nor 1 *and is below 1* (which
always holds when conversions do not exceed impressions), it is significant
exactly when z = |rate_b − rate_c| / sqrt(p(1−p)(1/n_c+1/n_b)) ≥ 1.96 and
the reported confidence equals min(99.9, 50 + 25·z).  (When p exceeds 1 the
code instead raises a `ValueError` from `math.sqrt` — see the
counterexample.) -/
theorem calculate_significance_spec (control treatment : Variant) :
    ((control.impressions < 100 ∨ treatment.impressions < 100) →
      calculate_significance control treatment = some (False, 0)) ∧
    (100 ≤ control.impressions → 100 ≤ treatment.impressions →
      (pooled control treatment = 0 ∨ pooled control treatment = 1 →
        calculate_significance control treatment = some (False, 0)) ∧
      (pooled control treatment ≠ 0 → pooled control treatment < 1 →
        calculate_significance control treatment =
          some (zval control treatment ≥ 1.96,
                min 99.9 (50 + zval control treatment * 25)))) := by
  constructor
  · intro h
    simp only [calculate_significance]
    rw [if_pos h]
  · intro hn1 hn2
    have hfl : ¬ (control.impressions < 100 ∨ treatment.impressions < 100) := by
      omega
    have hpe : ((control.conversions + treatment.conversions : ℕ) : ℚ) /
        ((control.impressions + treatment.impressions : ℕ) : ℚ) =
        pooled control treatment := rfl
    constructor
    · intro hp
      rw [← hpe] at hp
      simp only [calculate_significance]
      rw [if_neg hfl, if_pos hp]
    · intro hp0 hp1
      have hppos : 0 < pooled control treatment := by
        have hnn : 0 ≤ pooled control treatment := by
          unfold pooled
          positivity
        exact lt_of_le_of_ne hnn (Ne.symm hp0)
    
      have hn1q : 0 < (control.impressions : ℚ) := by
        exact_mod_cast Nat.lt_of_lt_of_le (by norm_num) hn1
      have hn2q : 0 < (treatment.impressions : ℚ) := by
        exact_mod_cast Nat.lt_of_lt_of_le (by norm_num) hn2
      have hinv : 0 < 1 / (control.impressions : ℚ) + 1 / (treatment.impressions : ℚ) := by
        have := one_div_pos.mpr hn1q
        have := one_div_pos.mpr hn2q
        linarith
      have hargpos : 0 < pooled control treatment * (1 - pooled control treatment) *
          (1 / (control.impressions : ℚ) + 1 / (treatment.impressions : ℚ)) := by
        have h1p : 0 < 1 - pooled control treatment := by linarith
        exact mul_pos (mul_pos hppos h1p) hinv
      have hargneg : ¬ (pooled control treatment * (1 - pooled control treatment) *
          (1 / (control.impressions : ℚ) + 1 / (treatment.impressions : ℚ)) < 0) := by
        linarith
      have hsepos : 0 < Real.sqrt ((pooled control treatment *
          (1 - pooled control treatment) *
          (1 / (control.impressions : ℚ) + 1 / (treatment.impressions : ℚ)) : ℚ) : ℝ) := by
        apply Real.sqrt_pos.mpr
        exact_mod_cast hargpos
      have hsene : Real.sqrt ((pooled control treatment *
          (1 - pooled control treatment) *
          (1 / (control.impressions : ℚ) + 1 / (treatment.impressions : ℚ)) : ℚ) : ℝ) ≠ 0 :=
        ne_of_gt hsepos
      have hcast : ((pooled control treatment * (1 - pooled control treatment) *
          (1 / (control.impressions : ℚ) + 1 / (treatment.impressions : ℚ)) : ℚ) : ℝ) =
          (pooled control treatment : ℝ) * (1 - (pooled control treatment : ℝ)) *
          (1 / (control.impressions : ℝ) + 1 / (treatment.impressions : ℝ)) := by
        push_cast
        ring
      have hz : |((treatment.conversion_rate : ℝ) - (control.conversion_rate : ℝ))| /
          Real.sqrt ((pooled control treatment * (1 - pooled control treatment) *
            (1 / (control.impressions : ℚ) + 1 / (treatment.impressions : ℚ)) : ℚ) : ℝ) =
          zval control treatment := by
        unfold zval
        rw [hcast]
      have hpne : ¬ (pooled control treatment = 0 ∨ pooled control treatment = 1) := by
        rintro (h | h)
        · exact hp0 h
        · exact absurd h (ne_of_lt hp1)
      simp only [calculate_significance]
      rw [if_neg hfl, hpe, if_neg hpne, if_neg hargneg, if_neg hsene, hz]

theorem calculate_significance_spec_witness :
    calculate_significance ⟨"c", 1/2, "", 200, 60⟩ ⟨"t", 1/2, "", 200, 140⟩ =
      some (zval ⟨"c", 1/2, "", 200, 60⟩ ⟨"t", 1/2, "", 200, 140⟩ ≥ 1.96,
            min 99.9 (50 + zval ⟨"c", 1/2, "", 200, 60⟩ ⟨"t", 1/2, "", 200, 140⟩ * 25)) :=
  ((calculate_significance_spec ⟨"c", 1/2, "", 200, 60⟩ ⟨"t", 1/2, "", 200, 140⟩).2
      (by norm_num) (by norm_num)).2 (by norm_num [pooled]) (by norm_num [pooled])
